import Mathlib

-- Verification development for the go-boot UAPI / GRUB boot-entry parsers
-- (package uapi, file entry.go). The Go source is shallowly embedded below:
-- strings are Lean String values, byte slices are List Nat, the abstract
-- fs.FS file tree is a function from paths to bytes-or-error, and the
-- (value, error) return convention of Go is modelled by an explicit result
-- type that also distinguishes a runtime panic from a returned error.

namespace GoBoot

-- ---------------------------------------------------------------------------
-- Character constants and character classes
-- ---------------------------------------------------------------------------

-- The single-quote, open-brace and close-brace characters.
def squote : Char := Char.ofNat 39

def lbrace : Char := Char.ofNat 123

def rbrace : Char := Char.ofNat 125

-- Unicode white space as tested by Go unicode.IsSpace (the set used by
-- strings.TrimSpace and strings.Fields): tab, newline, vertical tab,
-- form feed, carriage return, space, NEL and NBSP.
def goIsSpace (c : Char) : Bool :=
  c == ' ' || c == '\t' || c == '\n' || c == '\x0b' || c == '\x0c' ||
  c == '\r' || c == '\u0085' || c == '\u00A0'

-- White space of the RE2 character class backslash-s used by the
-- menuentry regular expressions: tab, newline, form feed, carriage
-- return and space.
def reSpace (c : Char) : Bool :=
  c == ' ' || c == '\t' || c == '\n' || c == '\x0c' || c == '\r'

-- strings.Count with a one-character pattern.
def countChar (s : String) (c : Char) : Nat := s.data.count c

-- strings.Contains with a one-character pattern.
def containsChar (s : String) (c : Char) : Bool := s.data.contains c

-- ---------------------------------------------------------------------------
-- Generic string helpers mirroring the Go standard library
-- ---------------------------------------------------------------------------

-- Drop the characters satisfying p from both ends of a character list.
def trimEndsBy (p : Char → Bool) (l : List Char) : List Char :=
  ((l.dropWhile p).reverse.dropWhile p).reverse

-- strings.TrimSpace.
def goTrimSpace (s : String) : String := String.mk (trimEndsBy goIsSpace s.data)

-- strings.Trim with the two-character cutset of newline and carriage return.
def goTrimNLCR (s : String) : String :=
  String.mk (trimEndsBy (fun c => c == '\n' || c == '\r') s.data)

-- strings.SplitN(line, " ", 2): when the line has no space the Go call
-- returns a one-element slice, modelled as none; otherwise the key before
-- the first space and the remainder after it.
def goSplitN2Space (line : String) : Option (String × String) :=
  if line.data.contains ' ' then
    some (String.mk (line.data.takeWhile (fun c => c != ' ')),
          String.mk ((line.data.dropWhile (fun c => c != ' ')).drop 1))
  else none

-- strings.Split(data, sep) for the one-character separator used at the
-- newline splits of the source: splitting the empty string yields one
-- empty piece, exactly as in Go.
def goSplitChar (c : Char) : List Char → List (List Char)
  | [] => [[]]
  | a :: rest =>
    let r := goSplitChar c rest
    if a == c then [] :: r
    else
      match r with
      | h :: t => (a :: h) :: t
      | [] => [[a]]

def goSplitNewline (s : String) : List String :=
  (goSplitChar '\n' s.data).map String.mk

-- strings.Lines: the newline-terminated lines of s, each piece keeping its
-- terminating newline; a final piece without a newline is kept, an empty
-- trailing piece is not produced.
def goLinesAux : List Char → List Char → List (List Char)
  | [], acc => if acc.isEmpty then [] else [acc.reverse]
  | c :: rest, acc =>
    if c == '\n' then (acc.reverse ++ ['\n']) :: goLinesAux rest []
    else goLinesAux rest (c :: acc)

def goLines (s : String) : List String := (goLinesAux s.data []).map String.mk

-- bufio dropCR: drop one terminal carriage return if present.
def dropCR (s : String) : String :=
  if s.data.getLast? == some '\r' then String.mk s.data.dropLast else s

-- The token sequence produced by a bufio.Scanner with the default
-- bufio.ScanLines split function over s: split at newlines, drop the empty
-- final piece produced by a terminating newline, and strip one carriage
-- return from the end of every token.
def goScanLines (s : String) : List String :=
  if s.data.isEmpty then []
  else
    let parts := goSplitNewline s
    let parts2 := if s.data.getLast? == some '\n' then parts.dropLast else parts
    parts2.map dropCR

-- strings.Fields: the maximal runs of non-space characters.
def goFieldsAux : List Char → List Char → List (List Char)
  | [], acc => if acc.isEmpty then [] else [acc.reverse]
  | c :: rest, acc =>
    if goIsSpace c then
      if acc.isEmpty then goFieldsAux rest []
      else acc.reverse :: goFieldsAux rest []
    else goFieldsAux rest (c :: acc)

def goFields (s : String) : List String := (goFieldsAux s.data []).map String.mk

-- strings.Replace core loop: at every position where the pattern sub
-- occurs, emit rep and skip the pattern, otherwise copy one character.
-- Each step consumes at least one input character, so running the loop
-- with the input length as fuel computes the full replacement; the fuel
-- only makes the recursion structural.
def replaceAllFuel (sub rep : List Char) : Nat → List Char → List Char
  | _, [] => []
  | 0, s => s
  | fuel + 1, c :: rest =>
    if sub.isPrefixOf (c :: rest) then
      rep ++ replaceAllFuel sub rep fuel (rest.drop (sub.length - 1))
    else
      c :: replaceAllFuel sub rep fuel rest

-- strings.ReplaceAll for a non-empty pattern (the only use in the source
-- replaces the one-character pattern slash; the empty-pattern insertion
-- behaviour of Go is therefore not modelled and the empty pattern is
-- returned unchanged).
def goReplaceAll (s sub rep : String) : String :=
  if sub.data.isEmpty then s
  else String.mk (replaceAllFuel sub.data rep.data s.data.length s.data)

-- Go string(b) conversion of a byte slice (the parsed configuration texts
-- are ASCII, for which bytewise and UTF-8 decoding agree).
def bytesToString (bs : List Nat) : String := String.mk (bs.map Char.ofNat)

-- Byte-slice contents of an ASCII Lean string, used to populate concrete
-- file trees in the examples below.
def strBytes (s : String) : List Nat := s.data.map Char.toNat

-- ---------------------------------------------------------------------------
-- The data model: file tree, entry record, Go result convention
-- ---------------------------------------------------------------------------

-- Except values are compared in the concrete examples below.
deriving instance DecidableEq for Except

-- The abstract read-only file tree fs.FS together with fs.ReadFile: a path
-- is mapped to the complete file contents or to a read-error message.
def FS : Type := String → Except String (List Nat)

-- Entry mirrors the Go struct: Title, Linux, Initrd, Options together with
-- the unexported parsed and ignored diagnostic strings.  The fsys field of
-- the Go struct is passed around explicitly instead.
structure Entry where
  Title : String
  Linux : List Nat
  Initrd : List Nat
  Options : String
  parsed : String
  ignored : String
deriving DecidableEq

-- The zero value Entry created at the start of LoadEntry and LoadGrubEntry.
def entryZero : Entry :=
  { Title := "", Linux := [], Initrd := [], Options := "", parsed := "", ignored := "" }

-- A Go call returning (value, error): ok models a nil error, err models a
-- returned non-nil error (with a nil entry), and crash models a runtime
-- panic that aborts the program instead of returning at all.
inductive GoResult (α : Type) where
  | ok : α → GoResult α
  | err : String → GoResult α
  | crash : String → GoResult α
deriving DecidableEq

-- ---------------------------------------------------------------------------
-- The UAPI Type 1 entry parser
-- ---------------------------------------------------------------------------

-- Entry.loadKeyValue: translate every forward slash of the value to a
-- backslash and read the resulting path from the file tree.
def loadKeyValue (fsys : FS) (v : String) : Except String (List Nat) :=
  fsys (goReplaceAll v "/" "\\")

-- Entry.parseKey: split the line at the first space, trim the value and
-- dispatch on the key, accumulating into the entry.
def parseKey (fsys : FS) (e : Entry) (line : String) : Except String Entry :=
  match goSplitN2Space line with
  | none => .ok e
  | some (k, raw) =>
    let v := goTrimSpace (goTrimNLCR raw)
    if k = "title" then
      .ok { e with Title := v, parsed := e.parsed ++ line }
    else if k = "linux" then
      match loadKeyValue fsys v with
      | .error m => .error m
      | .ok d => .ok { e with Linux := d, parsed := e.parsed ++ line }
    else if k = "initrd" then
      match loadKeyValue fsys v with
      | .error m => .error m
      | .ok d => .ok { e with Initrd := e.Initrd ++ d, parsed := e.parsed ++ line }
    else if k = "options" then
      .ok { e with Options := e.Options ++ v, parsed := e.parsed ++ line }
    else
      .ok { e with ignored := e.ignored ++ line }

-- The line loop of LoadEntry: the first failing parseKey aborts the parse
-- with the wrapped error of the source and no entry.
def parseLines (fsys : FS) : Entry → List String → GoResult Entry
  | e, [] => .ok e
  | e, l :: ls =>
    match parseKey fsys e l with
    | .error m => .err ("error parsing entry line, " ++ m ++ " line:" ++ l)
    | .ok e2 => parseLines fsys e2 ls

-- LoadEntry: read the entry file, then parse it line by line with
-- strings.Lines semantics.
def LoadEntry (fsys : FS) (path : String) : GoResult Entry :=
  match fsys path with
  | .error m => .err ("error reading entry file, " ++ m)
  | .ok bs => parseLines fsys entryZero (goLines (bytesToString bs))

-- ---------------------------------------------------------------------------
-- The two GRUB regular expressions of the source, as executable matchers
-- ---------------------------------------------------------------------------

-- Attempt the pattern menuentry, one or more white space, a single-quoted
-- non-empty title, at the very start of s; the captured title is returned.
def tryMenuentryAt (s : List Char) : Option (List Char) :=
  if "menuentry".data.isPrefixOf s then
    match s.drop 9 with
    | [] => none
    | c :: r2 =>
      if reSpace c then
        match (c :: r2).dropWhile reSpace with
        | [] => none
        | q1 :: r4 =>
          if q1 == squote then
            let content := r4.takeWhile (fun x => x != squote)
            if !content.isEmpty && r4.contains squote then some content else none
          else none
      else none
  else none

-- The anchored pattern of ExtractGrubMenuentries: optional leading white
-- space, then the menuentry-and-title pattern at the start of the line.
def menuentryStartMatch (line : String) : Bool :=
  (tryMenuentryAt (line.data.dropWhile reSpace)).isSome

-- FindStringSubmatch of the unanchored title pattern: the capture of the
-- leftmost match anywhere in the block.
def titleCaptureAux : List Char → Option (List Char)
  | [] => none
  | c :: rest =>
    match tryMenuentryAt (c :: rest) with
    | some t => some t
    | none => titleCaptureAux rest

def menuentryTitleCapture (b : String) : Option String :=
  (titleCaptureAux b.data).map String.mk

-- FindStringSubmatch of the body pattern open-brace, any characters other
-- than close-brace, close-brace: the capture of the leftmost match is the
-- text between the first open brace and the first close brace after it
-- (no match when no close brace follows an open brace).
def braceBodyAux : List Char → Option (List Char)
  | [] => none
  | c :: rest =>
    if c == lbrace then
      if rest.contains rbrace then some (rest.takeWhile (fun x => x != rbrace))
      else none
    else braceBodyAux rest

def braceBodyCapture (b : String) : Option String :=
  (braceBodyAux b.data).map String.mk

-- ---------------------------------------------------------------------------
-- ExtractGrubMenuentries: the brace-depth block extractor
-- ---------------------------------------------------------------------------

-- The loop state of ExtractGrubMenuentries: the collecting flag, the brace
-- level, the lines of the block being collected and the emitted blocks.
structure ExtractState where
  collecting : Bool
  braceLevel : Int
  current : List String
  entries : List String
deriving DecidableEq

def extractInit : ExtractState :=
  { collecting := false, braceLevel := 0, current := [], entries := [] }

-- One iteration of the line loop of ExtractGrubMenuentries.  While not
-- collecting, a line matching the menuentry pattern seeds the block, zeroes
-- the level, then adds one if the line contains an open brace and subtracts
-- the count of close braces when that count is positive.  While collecting,
-- the line is appended, the level adjusted by the brace counts, and at
-- level zero the block is emitted as the newline join of its lines.
def extractStep (s : ExtractState) (line : String) : ExtractState :=
  if s.collecting then
    let current := s.current ++ [line]
    let lvl : Int :=
      s.braceLevel + (countChar line lbrace : Int) - (countChar line rbrace : Int)
    if lvl = 0 then
      { s with entries := s.entries ++ [String.intercalate "\n" current],
               collecting := false, current := [], braceLevel := lvl }
    else
      { s with current := current, braceLevel := lvl }
  else
    if menuentryStartMatch line then
      let l0 : Int := 0
      let l1 : Int :=
        if containsChar line lbrace then
          if 0 < countChar line rbrace then l0 + 1 - (countChar line rbrace : Int)
          else l0 + 1
        else l0
      { s with collecting := true, braceLevel := l1, current := [line] }
    else s

-- The whole line loop, starting from the zero state.
def extractRun (ls : List String) : ExtractState := ls.foldl extractStep extractInit

-- ExtractGrubMenuentries returns the emitted blocks and an error value
-- that is always nil in the source.
def ExtractGrubMenuentries (data : String) : List String × Option String :=
  ((extractRun (goSplitNewline data)).entries, none)

-- ---------------------------------------------------------------------------
-- LoadGrubEntry: the GRUB entry parser
-- ---------------------------------------------------------------------------

-- The inner loop of the initrd case: load every path in order, appending to
-- Initrd, aborting on the first load failure with the error of the source.
def grubLoadInitrds (fsys : FS) : Entry → List String → Except String Entry
  | e, [] => .ok e
  | e, p :: ps =>
    match loadKeyValue fsys p with
    | .error m => .error ("loading initrd " ++ p ++ ": " ++ m)
    | .ok d => grubLoadInitrds fsys { e with Initrd := e.Initrd ++ d } ps

-- One iteration of the body scan of LoadGrubEntry: trim the line, skip
-- blank and comment lines, split into fields and dispatch on the first
-- field; every line that completes the switch (by any branch other than a
-- continue or an error return) is appended to the parsed text.
def processGrubLine (fsys : FS) (e : Entry) (raw : String) : Except String Entry :=
  let line := goTrimSpace raw
  if line = "" then .ok e
  else if "#".data.isPrefixOf line.data then .ok e
  else
    match goFields line with
    | [] => .ok e
    | f0 :: fs =>
      if f0 = "linux" then
        match fs with
        | [] => .ok e
        | kernel :: opts =>
          match loadKeyValue fsys kernel with
          | .error m => .error ("loading linux image " ++ kernel ++ ": " ++ m)
          | .ok d =>
            let e2 := { e with Linux := d }
            let e3 :=
              if opts.isEmpty then e2
              else { e2 with Options := String.intercalate " " opts }
            .ok { e3 with parsed := e3.parsed ++ line ++ "\n" }
      else if f0 = "initrd" then
        match fs with
        | [] => .ok e
        | _ :: _ =>
          match grubLoadInitrds fsys e fs with
          | .error m => .error m
          | .ok e2 => .ok { e2 with parsed := e2.parsed ++ line ++ "\n" }
      else
        .ok { e with ignored := e.ignored ++ line ++ "\n",
                     parsed := e.parsed ++ line ++ "\n" }

-- The scanner loop over the body lines; the scanner of the source never
-- produces a read error over a string reader, so the loop ends in ok.
def grubScanLines (fsys : FS) : Entry → List String → GoResult Entry
  | e, [] => .ok e
  | e, raw :: rest =>
    match processGrubLine fsys e raw with
    | .error m => .err m
    | .ok e2 => grubScanLines fsys e2 rest

-- The configuration text actually handed to the extractor by LoadGrubEntry:
-- the read error of fs.ReadFile is assigned but never checked in the
-- source, so a failed read simply yields the empty string.
def grubText (fsys : FS) (path : String) : String :=
  match fsys path with
  | .ok bs => bytesToString bs
  | .error _ => ""

-- LoadGrubEntry: read the config (without checking the read error), run the
-- extractor (whose own error value is discarded with a blank identifier),
-- index the first block without any emptiness guard (a runtime panic when
-- there is none), capture the title and the brace body, then scan the body.
def LoadGrubEntry (fsys : FS) (path : String) : GoResult Entry :=
  match (ExtractGrubMenuentries (grubText fsys path)).1 with
  | [] => .crash "runtime error: index out of range [0] with length 0"
  | b :: _ =>
    match menuentryTitleCapture b with
    | none => .err "could not parse menuentry title"
    | some t =>
      match braceBodyCapture b with
      | none => .err "menuentry block missing braces"
      | some body =>
        grubScanLines fsys { entryZero with Title := t } (goScanLines body)

-- ---------------------------------------------------------------------------
-- Concrete file trees and inputs used by the claims about fixed inputs
-- ---------------------------------------------------------------------------

-- The single-quote character as a one-character string, used to assemble
-- the concrete GRUB configuration texts below.
def sq : String := String.singleton squote

-- A file tree whose GRUB configuration file is readable but empty, so the
-- extractor yields zero blocks.
def fsC1 : FS := fun p =>
  if p = "grub.cfg" then .ok [] else .error "open: file does not exist"

-- A file tree on which every read fails.
def fsC2 : FS := fun _ => .error "open grub.cfg: file does not exist"

-- A GRUB configuration whose menuentry body holds one directive, echo hi,
-- that is recognized by neither the linux nor the initrd case.
def grubCfgC3 : String :=
  "menuentry " ++ sq ++ "T" ++ sq ++ " \x7b\necho hi\n\x7d\n"

def fsC3 : FS := fun p =>
  if p = "g" then .ok (strBytes grubCfgC3) else .error "open: file does not exist"

-- The two-menuentry input of the brace-depth extraction property: block A
-- with an inner brace pair on its middle line, then a one-line block B.
def c4Input : String :=
  "menuentry " ++ sq ++ "A" ++ sq ++ " \x7b\n  x \x7by\x7d z\n\x7d\n" ++
  "menuentry " ++ sq ++ "B" ++ sq ++ " \x7b \x7d"

-- A matched menuentry opening line carrying two open braces.
def c5Line : String := "menuentry " ++ sq ++ "A" ++ sq ++ " \x7b\x7b"

-- A matched menuentry opening line carrying one open brace.
def c5WitnessLine : String := "menuentry " ++ sq ++ "X" ++ sq ++ " \x7b"

-- ---------------------------------------------------------------------------
-- Claims C1 to C5
-- ---------------------------------------------------------------------------

/-- Claim C1 (code evidence): on a file tree where the GRUB config file is
readable but contains no menuentry block, LoadGrubEntry does not return a
structural-failure error: indexing the first block is unguarded and the call
ends in a runtime panic, index out of range. -/
theorem C1_empty_grub_config_crashes :
    LoadGrubEntry fsC1 "grub.cfg" =
      GoResult.crash "runtime error: index out of range [0] with length 0" := by
  decide

/-- Claim C2 (code evidence): when reading the GRUB config file itself fails,
LoadGrubEntry does not abort with an error before parsing: the read error is
assigned but never checked, the empty text yields zero blocks, and indexing
the first block ends in a runtime panic rather than an error return. -/
theorem C2_unreadable_grub_config_crashes :
    LoadGrubEntry fsC2 "grub.cfg" =
      GoResult.crash "runtime error: index out of range [0] with length 0" := by
  decide

/-- Claim C3 (code evidence): in the GRUB entry parser an unrecognized body
line is appended to the ignored text and then, because the parsed append
after the switch runs for every dispatched line, also to the parsed
(recognized) text: on a body holding only the directive echo hi, both
diagnostic fields end up equal to that line, so the recognized and ignored
texts do not partition the input lines. -/
theorem C3_grub_unknown_line_lands_in_both :
    LoadGrubEntry fsC3 "g" =
      GoResult.ok { Title := "T", Linux := [], Initrd := [], Options := "",
                    parsed := "echo hi\n", ignored := "echo hi\n" } := by
  decide

/-- Claim C4 counterexample: on the two-menuentry input of the claim, the
extractor does not return exactly two blocks. -/
theorem C4_counterexample :
    ¬ ((ExtractGrubMenuentries c4Input).1.length = 2) := by
  decide

/-- Claim C4 (amended): on the two-menuentry input, the extractor returns
exactly one block, the block of menuentry A spanning from its opening line
through its matching closing brace, not terminating early at the inner brace
pair; the one-line block of menuentry B is never emitted, because the brace
level is only tested against zero on lines after the matched opening line. -/
theorem C4_first_block_only :
    ExtractGrubMenuentries c4Input =
      (["menuentry " ++ sq ++ "A" ++ sq ++ " \x7b\n  x \x7by\x7d z\n\x7d"], none) := by
  decide

/-- Claim C5 counterexample: on a matched opening line with two open braces
and no close brace, the brace level after processing that line is not the
count of open braces minus the count of close braces. -/
theorem C5_counterexample :
    ¬ ((extractStep extractInit c5Line).braceLevel =
        (countChar c5Line lbrace : Int) - (countChar c5Line rbrace : Int)) := by
  decide

/-- Claim C5 (amended): when the extractor matches a menuentry opening line
from a non-collecting state, the brace level after processing the line is
one minus the count of close braces when the line contains at least one open
brace, and zero otherwise: the open braces on the opening line contribute at
most one, not one each. -/
theorem C5_opening_line_brace_level (s : ExtractState) (line : String)
    (hc : s.collecting = false) (hm : menuentryStartMatch line = true) :
    (extractStep s line).braceLevel =
      (if containsChar line lbrace then 1 - (countChar line rbrace : Int) else 0) := by
  unfold extractStep
  rw [hc]
  simp only [Bool.false_eq_true, if_false, hm, if_true]
  by_cases hb : containsChar line lbrace
  · simp only [hb, if_true]
    by_cases hz : 0 < countChar line rbrace
    · simp [hz]
    · have : countChar line rbrace = 0 := by omega
      simp [hz, this]
  · simp [hb]

/-- Witness for claim C5: the amended statement evaluated on a concrete
matched opening line with one open brace. -/
theorem C5_witness :
    (extractStep extractInit c5WitnessLine).braceLevel =
      (if containsChar c5WitnessLine lbrace then
        1 - (countChar c5WitnessLine rbrace : Int) else 0) :=
  C5_opening_line_brace_level extractInit c5WitnessLine (by decide) (by decide)

-- ---------------------------------------------------------------------------
-- Claim C9: slash-to-backslash path translation before lookup
-- ---------------------------------------------------------------------------

-- Replacing the one-character pattern slash by backslash is exactly the
-- character map sending every slash to a backslash, for any sufficient fuel.
theorem replaceAllFuel_slash (l : List Char) :
    ∀ fuel : Nat, l.length ≤ fuel →
      replaceAllFuel ['/'] ['\\'] fuel l =
        l.map (fun c => if c = '/' then '\\' else c) := by
  induction l with
  | nil => intro fuel _; cases fuel <;> rfl
  | cons c rest ih =>
    intro fuel hlen
    match fuel with
    | 0 => exact absurd hlen (by simp)
    | f + 1 =>
      rw [replaceAllFuel]
      by_cases h : c = '/'
      · subst h
        have hp : (['/'].isPrefixOf ('/' :: rest)) = true := by
          simp [List.isPrefixOf]
        rw [if_pos hp]
        simp only [List.length_singleton, Nat.sub_self, List.drop_zero]
        rw [ih f (by simpa using Nat.lt_succ_iff.mp (Nat.lt_of_lt_of_le (Nat.lt_succ_self _) hlen))]
        simp
      · have hp : (['/'].isPrefixOf (c :: rest)) = false := by
          simp only [List.isPrefixOf, Bool.and_eq_false_iff]
          left
          exact beq_false_of_ne (fun hh => h hh.symm)
        rw [if_neg (by simp [hp])]
        rw [ih f (by simpa [Nat.succ_le_succ_iff] using hlen)]
        simp [if_neg h]

/-- Claim C9: every file-valued key or field value is looked up through
loadKeyValue, which queries the file tree at the value with every forward
slash replaced by a backslash; the replacement is exactly the character map
sending slashes to backslashes (so the literal forward-slash string is never
requested when the value contains a slash), and on the concrete value a/b/c
the requested path is a backslash b backslash c. -/
theorem C9_slash_translation (fsys : FS) (v : String) :
    loadKeyValue fsys v = fsys (goReplaceAll v "/" "\\") ∧
    (goReplaceAll v "/" "\\").data =
      v.data.map (fun c => if c = '/' then '\\' else c) ∧
    goReplaceAll "a/b/c" "/" "\\" = "a\\b\\c" := by
  refine ⟨rfl, ?_, by decide⟩
  unfold goReplaceAll
  rw [if_neg (by decide)]
  show replaceAllFuel "/".data "\\".data v.data.length v.data = _
  exact replaceAllFuel_slash v.data v.data.length (Nat.le_refl _)

-- ---------------------------------------------------------------------------
-- Claim C10: a trailing unterminated block is discarded without error
-- ---------------------------------------------------------------------------

-- The collecting flag holds after every non-empty prefix of the remaining
-- lines: a block start was matched and the brace level never returned to
-- zero while processing them.
def allPrefixesCollecting (s : ExtractState) : List String → Bool
  | [] => true
  | l :: ls =>
    let s2 := extractStep s l
    s2.collecting && allPrefixesCollecting s2 ls

-- A step that leaves the extractor collecting emits nothing.
theorem extractStep_entries_keep (s : ExtractState) (l : String)
    (h : (extractStep s l).collecting = true) :
    (extractStep s l).entries = s.entries := by
  unfold extractStep at h ⊢
  by_cases hc : s.collecting
  · rw [if_pos hc] at h ⊢
    by_cases hz :
        (s.braceLevel + (countChar l lbrace : Int) - (countChar l rbrace : Int)) = 0
    · rw [if_pos hz] at h
      simp at h
    · rw [if_neg hz]
  · rw [if_neg hc] at h ⊢
    by_cases hm : menuentryStartMatch l
    · rw [if_pos hm]
    · rw [if_neg hm]

-- Processing lines during which the extractor stays collecting leaves the
-- emitted blocks unchanged.
theorem foldl_entries_of_allCollecting (ex : List String) :
    ∀ s : ExtractState, allPrefixesCollecting s ex = true →
      (List.foldl extractStep s ex).entries = s.entries := by
  induction ex with
  | nil => intro s _; rfl
  | cons a rest ih =>
    intro s h
    unfold allPrefixesCollecting at h
    rw [Bool.and_eq_true] at h
    rw [List.foldl_cons, ih _ h.2, extractStep_entries_keep s a h.1]

/-- Claim C10: when the input splits into a prefix after which the extractor
is not collecting, followed by a non-empty run of trailing lines on which a
menuentry start is matched but the extractor is still collecting after every
one of them (the brace depth never returns to zero), the trailing
unterminated block is discarded: ExtractGrubMenuentries returns exactly the
blocks emitted during the prefix, with its error value still nil. -/
theorem C10_unterminated_trailing_block_discarded
    (pre ex : List String) (data : String)
    (hdata : goSplitNewline data = pre ++ ex)
    (hnc : (extractRun pre).collecting = false)
    (hne : ex ≠ [])
    (hall : allPrefixesCollecting (extractRun pre) ex = true) :
    ExtractGrubMenuentries data = ((extractRun pre).entries, none) := by
  unfold ExtractGrubMenuentries
  rw [hdata]
  have hsplit : extractRun (pre ++ ex) = List.foldl extractStep (extractRun pre) ex := by
    unfold extractRun
    exact List.foldl_append _ _ _ _
  rw [hsplit, foldl_entries_of_allCollecting ex _ hall]

-- The concrete split of the C10 witness: a complete block of menuentry A,
-- then an unterminated block of menuentry B.
def c10Pre : List String := ["menuentry " ++ sq ++ "A" ++ sq ++ " \x7b", "\x7d"]

def c10Ex : List String := ["menuentry " ++ sq ++ "B" ++ sq ++ " \x7b", "  foo"]

def c10Data : String :=
  "menuentry " ++ sq ++ "A" ++ sq ++ " \x7b\n\x7d\n" ++
  "menuentry " ++ sq ++ "B" ++ sq ++ " \x7b\n  foo"

/-- Witness for claim C10: on a config holding one complete block followed
by an unterminated one, the extractor returns only the blocks of the
complete prefix and no error. -/
theorem C10_witness :
    ExtractGrubMenuentries c10Data = ((extractRun c10Pre).entries, none) :=
  C10_unterminated_trailing_block_discarded c10Pre c10Ex c10Data
    (by decide) (by decide) (by decide) (by decide)

-- ---------------------------------------------------------------------------
-- Specification-side accumulation functions for claims C7 and C8
-- ---------------------------------------------------------------------------

-- Follows the spec wording: the initrd bytes contributed by one UAPI entry
-- line, namely the resolved contents of its value when its key is initrd
-- and the load succeeds, and nothing otherwise.
def uapiLineInitrd (fsys : FS) (l : String) : List Nat :=
  match goSplitN2Space l with
  | none => []
  | some (k, raw) =>
    if k = "initrd" then
      match loadKeyValue fsys (goTrimSpace (goTrimNLCR raw)) with
      | .ok d => d
      | .error _ => []
    else []

-- Follows the spec wording: the options text contributed by one UAPI entry
-- line, namely its trimmed value when its key is options, else empty.
def uapiLineOptions (l : String) : String :=
  match goSplitN2Space l with
  | none => ""
  | some (k, raw) => if k = "options" then goTrimSpace (goTrimNLCR raw) else ""

-- Plain concatenation of a list of strings, with no separator.
def strConcat : List String → String
  | [] => ""
  | x :: xs => x ++ strConcat xs

-- Follows the spec wording: the Initrd bytes of a UAPI parse are the
-- concatenation, in line order, of the per-line initrd contributions.
def specInitrdConcatUAPI (fsys : FS) (ls : List String) : List Nat :=
  (ls.map (uapiLineInitrd fsys)).flatten

-- Follows the spec wording: the Options of a UAPI parse are the pure
-- concatenation, in line order and with no separator, of the trimmed
-- values of the options lines.
def specOptionsConcatUAPI (ls : List String) : String :=
  strConcat (ls.map uapiLineOptions)

-- The bytes a GRUB initrd path resolves to when its load succeeds.
def grubPathBytes (fsys : FS) (q : String) : List Nat :=
  match loadKeyValue fsys q with
  | .ok d => d
  | .error _ => []

-- Follows the spec wording: the initrd bytes contributed by one GRUB body
-- line, namely the in-order concatenation of the contents of all paths
-- after the initrd directive, and nothing for any other line.
def grubLineInitrd (fsys : FS) (raw : String) : List Nat :=
  match goFields (goTrimSpace raw) with
  | f0 :: p :: ps =>
    if f0 = "initrd" then ((p :: ps).map (grubPathBytes fsys)).flatten else []
  | _ => []

-- Follows the spec wording: the Initrd bytes of a GRUB parse are the
-- concatenation, in body-line order, of the per-line contributions.
def specInitrdConcatGrub (fsys : FS) (ls : List String) : List Nat :=
  (ls.map (grubLineInitrd fsys)).flatten

-- A UAPI line whose key is initrd and whose trimmed value fails to load.
def uapiInitrdLoadFails (fsys : FS) (l : String) : Prop :=
  ∃ raw m, goSplitN2Space l = some ("initrd", raw) ∧
    loadKeyValue fsys (goTrimSpace (goTrimNLCR raw)) = .error m

-- A GRUB body line whose first field is initrd and one of whose path
-- fields fails to load.
def grubInitrdLoadFails (fsys : FS) (raw : String) : Prop :=
  ∃ ps q m, goFields (goTrimSpace raw) = "initrd" :: ps ∧ q ∈ ps ∧
    loadKeyValue fsys q = .error m

-- ---------------------------------------------------------------------------
-- How one UAPI line changes the Initrd and Options accumulators
-- ---------------------------------------------------------------------------

theorem parseKey_ok_fields (fsys : FS) (e e2 : Entry) (l : String)
    (h : parseKey fsys e l = .ok e2) :
    e2.Initrd = e.Initrd ++ uapiLineInitrd fsys l ∧
    e2.Options = e.Options ++ uapiLineOptions l := by
  unfold parseKey at h
  unfold uapiLineInitrd uapiLineOptions
  cases hs : goSplitN2Space l with
  | none =>
    rw [hs] at h
    cases h
    simp
  | some kv =>
    obtain ⟨k, raw⟩ := kv
    rw [hs] at h
    dsimp only at h ⊢
    by_cases h1 : k = "title"
    · rw [if_pos h1] at h
      rw [if_neg (by rw [h1]; decide), if_neg (by rw [h1]; decide)]
      cases h
      simp
    · rw [if_neg h1] at h
      by_cases h2 : k = "linux"
      · rw [if_pos h2] at h
        rw [if_neg (by rw [h2]; decide), if_neg (by rw [h2]; decide)]
        cases hl : loadKeyValue fsys (goTrimSpace (goTrimNLCR raw)) with
        | error m => rw [hl] at h; cases h
        | ok d =>
          rw [hl] at h
          cases h
          simp
      · rw [if_neg h2] at h
        by_cases h3 : k = "initrd"
        · rw [if_pos h3] at h
          rw [if_pos h3, if_neg (by rw [h3]; decide)]
          cases hl : loadKeyValue fsys (goTrimSpace (goTrimNLCR raw)) with
          | error m => rw [hl] at h; cases h
          | ok d =>
            rw [hl] at h
            cases h
            simp
        · rw [if_neg h3] at h
          rw [if_neg h3]
          by_cases h4 : k = "options"
          · rw [if_pos h4] at h
            rw [if_pos h4]
            cases h
            simp
          · rw [if_neg h4] at h
            rw [if_neg h4]
            cases h
            simp

-- Folding the line loop over a successfully parsed list of lines appends
-- exactly the specification-side concatenations to Initrd and Options.
theorem parseLines_ok_accum (ls : List String) :
    ∀ (fsys : FS) (e e' : Entry), parseLines fsys e ls = .ok e' →
      e'.Initrd = e.Initrd ++ specInitrdConcatUAPI fsys ls ∧
      e'.Options = e.Options ++ specOptionsConcatUAPI ls := by
  induction ls with
  | nil =>
    intro fsys e e' h
    unfold parseLines at h
    cases h
    constructor <;> simp [specInitrdConcatUAPI, specOptionsConcatUAPI, strConcat]
  | cons a rest ih =>
    intro fsys e e' h
    unfold parseLines at h
    cases hk : parseKey fsys e a with
    | error m =>
      rw [hk] at h
      cases h
    | ok e2 =>
      rw [hk] at h
      obtain ⟨hi, ho⟩ := ih fsys e2 e' h
      obtain ⟨hi2, ho2⟩ := parseKey_ok_fields fsys e e2 a hk
      constructor
      · rw [hi, hi2]
        simp [specInitrdConcatUAPI, List.append_assoc]
      · rw [ho, ho2]
        simp [specOptionsConcatUAPI, strConcat, String.append_assoc]

-- A UAPI initrd line whose load fails makes parseKey fail, whatever the
-- accumulated entry.
theorem parseKey_initrd_fails (fsys : FS) (e : Entry) (l : String)
    (hf : uapiInitrdLoadFails fsys l) :
    ∃ m, parseKey fsys e l = .error m := by
  obtain ⟨raw, m, hs, hl⟩ := hf
  refine ⟨m, ?_⟩
  unfold parseKey
  rw [hs]
  dsimp only
  rw [if_neg (by decide), if_neg (by decide), if_pos rfl]
  rw [hl]

-- The UAPI line loop aborts with the wrapped line-naming error as soon as
-- some line of the input is a failing initrd line.
theorem parseLines_abort (ls : List String) :
    ∀ (fsys : FS) (e : Entry), (∃ l ∈ ls, uapiInitrdLoadFails fsys l) →
      ∃ l2 m, parseLines fsys e ls =
        GoResult.err ("error parsing entry line, " ++ m ++ " line:" ++ l2) := by
  induction ls with
  | nil =>
    rintro fsys e ⟨l, hl, _⟩
    simp at hl
  | cons a rest ih =>
    rintro fsys e ⟨l, hl, hf⟩
    unfold parseLines
    cases hk : parseKey fsys e a with
    | error m =>
      exact ⟨a, m, rfl⟩
    | ok e2 =>
      rcases List.mem_cons.mp hl with heq | hmem
      · subst heq
        obtain ⟨m, hm⟩ := parseKey_initrd_fails fsys e l hf
        rw [hm] at hk
        cases hk
      · exact ih fsys e2 ⟨l, hmem, hf⟩

-- ---------------------------------------------------------------------------
-- GRUB body-line lemmas
-- ---------------------------------------------------------------------------

-- The field scanner started with a non-empty accumulator emits that
-- accumulator (reversed) as the beginning of its first field.
theorem goFieldsAux_head_acc (l : List Char) :
    ∀ acc : List Char, acc ≠ [] →
      ∃ t fs, goFieldsAux l acc = (acc.reverse ++ t) :: fs := by
  induction l with
  | nil =>
    intro acc hne
    refine ⟨[], [], ?_⟩
    unfold goFieldsAux
    rw [if_neg (by simpa [List.isEmpty_iff] using hne)]
    simp
  | cons c rest ih =>
    intro acc hne
    unfold goFieldsAux
    by_cases hsp : goIsSpace c
    · rw [if_pos hsp, if_neg (by simpa [List.isEmpty_iff] using hne)]
      exact ⟨[], goFieldsAux rest [], by simp⟩
    · rw [if_neg hsp]
      obtain ⟨t, fs, hh⟩ := ih (c :: acc) (by simp)
      refine ⟨c :: t, fs, ?_⟩
      rw [hh]
      simp

-- A line whose text begins with the comment character cannot have initrd
-- as its first field.
theorem goFields_hash_not_initrd (line : String)
    (h : "#".data.isPrefixOf line.data) :
    ∀ ps, goFields line ≠ "initrd" :: ps := by
  intro ps hcon
  match hd : line.data with
  | [] =>
    rw [hd] at h
    simp [List.isPrefixOf] at h
  | c :: r =>
    rw [hd] at h
    have hc : c = '#' := by
      have := (List.cons_prefix_cons.mp (List.isPrefixOf_iff_prefix.mp h)).1
      exact this.symm
    subst hc
    unfold goFields at hcon
    rw [hd] at hcon
    unfold goFieldsAux at hcon
    rw [if_neg (by decide)] at hcon
    obtain ⟨t, fs, hh⟩ := goFieldsAux_head_acc r ['#'] (by simp)
    rw [hh] at hcon
    have h1 : String.mk (['#'].reverse ++ t) = "initrd" := (List.cons.injEq _ _ _ _).mp hcon |>.1
    have h2 : '#' :: t = "initrd".data := congrArg String.data h1
    have h3 : '#' = 'i' := (List.cons.injEq _ _ _ _).mp h2 |>.1
    cases h3

-- The initrd path loop, when it succeeds, appends the resolved bytes of
-- every path in order.
theorem grubLoadInitrds_ok (ps : List String) :
    ∀ (fsys : FS) (e e' : Entry), grubLoadInitrds fsys e ps = .ok e' →
      e'.Initrd = e.Initrd ++ (ps.map (grubPathBytes fsys)).flatten := by
  induction ps with
  | nil =>
    intro fsys e e' h
    unfold grubLoadInitrds at h
    cases h
    simp
  | cons p rest ih =>
    intro fsys e e' h
    unfold grubLoadInitrds at h
    cases hl : loadKeyValue fsys p with
    | error m => rw [hl] at h; cases h
    | ok d =>
      rw [hl] at h
      have := ih fsys { e with Initrd := e.Initrd ++ d } e' h
      rw [this]
      simp [grubPathBytes, hl, List.append_assoc]

-- How one GRUB body line changes the Initrd accumulator on success.
theorem processGrubLine_ok_initrd (fsys : FS) (e e2 : Entry) (raw : String)
    (h : processGrubLine fsys e raw = .ok e2) :
    e2.Initrd = e.Initrd ++ grubLineInitrd fsys raw := by
  unfold processGrubLine at h
  unfold grubLineInitrd
  by_cases h0 : goTrimSpace raw = ""
  · rw [if_pos h0] at h
    cases h
    rw [h0]
    simp [goFields, goFieldsAux]
  · rw [if_neg h0] at h
    by_cases hh : "#".data.isPrefixOf (goTrimSpace raw).data
    · rw [if_pos hh] at h
      cases h
      cases hf : goFields (goTrimSpace raw) with
      | nil => simp
      | cons f0 fs =>
        cases fs with
        | nil => simp
        | cons p ps =>
          have hne : ¬ (f0 = "initrd") := by
            intro heq
            subst heq
            exact goFields_hash_not_initrd _ hh _ hf
          simp [hne]
    · rw [if_neg hh] at h
      cases hf : goFields (goTrimSpace raw) with
      | nil =>
        rw [hf] at h
        cases h
        simp
      | cons f0 fs =>
        rw [hf] at h
        dsimp only at h
        by_cases h1 : f0 = "linux"
        · rw [if_pos h1] at h
          cases fs with
          | nil =>
            cases h
            simp
          | cons kernel opts =>
            dsimp only at h
            cases hl : loadKeyValue fsys kernel with
            | error m => rw [hl] at h; cases h
            | ok d =>
              rw [hl] at h
              dsimp only at h
              by_cases ho : opts.isEmpty
              · rw [if_pos ho] at h
                cases h
                simp [show ¬ (f0 = "initrd") from by rw [h1]; decide]
              · rw [if_neg ho] at h
                cases h
                simp [show ¬ (f0 = "initrd") from by rw [h1]; decide]
        · rw [if_neg h1] at h
          by_cases h2 : f0 = "initrd"
          · rw [if_pos h2] at h
            cases fs with
            | nil =>
              cases h
              simp
            | cons p ps =>
              dsimp only at h
              cases hg : grubLoadInitrds fsys e (p :: ps) with
              | error m => rw [hg] at h; cases h
              | ok e4 =>
                rw [hg] at h
                cases h
                have := grubLoadInitrds_ok (p :: ps) fsys e e4 hg
                simpa [h2] using this
          · rw [if_neg h2] at h
            cases h
            cases fs with
            | nil => simp
            | cons p ps => simp [h2]

-- The body scan, when it succeeds, appends exactly the specification-side
-- initrd concatenation.
theorem grubScanLines_ok (ls : List String) :
    ∀ (fsys : FS) (e e' : Entry), grubScanLines fsys e ls = .ok e' →
      e'.Initrd = e.Initrd ++ specInitrdConcatGrub fsys ls := by
  induction ls with
  | nil =>
    intro fsys e e' h
    unfold grubScanLines at h
    cases h
    simp [specInitrdConcatGrub]
  | cons a rest ih =>
    intro fsys e e' h
    unfold grubScanLines at h
    cases hk : processGrubLine fsys e a with
    | error m => rw [hk] at h; cases h
    | ok e2 =>
      rw [hk] at h
      have h1 := ih fsys e2 e' h
      have h2 := processGrubLine_ok_initrd fsys e e2 a hk
      rw [h1, h2]
      simp [specInitrdConcatGrub, List.append_assoc]

-- Every error of the initrd path loop names the failing path.
theorem grubLoadInitrds_error_shape (ps : List String) :
    ∀ (fsys : FS) (e : Entry) (msg : String),
      grubLoadInitrds fsys e ps = .error msg →
      ∃ q m, msg = "loading initrd " ++ q ++ ": " ++ m := by
  induction ps with
  | nil =>
    intro fsys e msg h
    unfold grubLoadInitrds at h
    cases h
  | cons p rest ih =>
    intro fsys e msg h
    unfold grubLoadInitrds at h
    cases hl : loadKeyValue fsys p with
    | error m =>
      rw [hl] at h
      cases h
      exact ⟨p, m, rfl⟩
    | ok d =>
      rw [hl] at h
      exact ih fsys _ msg h

-- A failing path among the initrd fields makes the path loop fail.
theorem grubLoadInitrds_fails (ps : List String) :
    ∀ (fsys : FS) (e : Entry),
      (∃ q ∈ ps, ∃ m, loadKeyValue fsys q = .error m) →
      ∃ msg, grubLoadInitrds fsys e ps = .error msg := by
  induction ps with
  | nil =>
    rintro fsys e ⟨q, hq, _⟩
    simp at hq
  | cons p rest ih =>
    rintro fsys e ⟨q, hq, m, hl⟩
    unfold grubLoadInitrds
    cases hp : loadKeyValue fsys p with
    | error m2 => exact ⟨"loading initrd " ++ p ++ ": " ++ m2, rfl⟩
    | ok d =>
      rcases List.mem_cons.mp hq with heq | hmem
      · subst heq
        rw [hp] at hl
        cases hl
      · exact ih fsys _ ⟨q, hmem, m, hl⟩

-- Every error of the body-line dispatcher names a linux image path or an
-- initrd path.
theorem processGrubLine_error_shape (fsys : FS) (e : Entry) (raw msg : String)
    (h : processGrubLine fsys e raw = .error msg) :
    (∃ q m, msg = "loading linux image " ++ q ++ ": " ++ m) ∨
    (∃ q m, msg = "loading initrd " ++ q ++ ": " ++ m) := by
  unfold processGrubLine at h
  by_cases h0 : goTrimSpace raw = ""
  · rw [if_pos h0] at h
    cases h
  · rw [if_neg h0] at h
    by_cases hh : "#".data.isPrefixOf (goTrimSpace raw).data
    · rw [if_pos hh] at h
      cases h
    · rw [if_neg hh] at h
      cases hf : goFields (goTrimSpace raw) with
      | nil =>
        rw [hf] at h
        cases h
      | cons f0 fs =>
        rw [hf] at h
        dsimp only at h
        by_cases h1 : f0 = "linux"
        · rw [if_pos h1] at h
          cases fs with
          | nil => cases h
          | cons kernel opts =>
            dsimp only at h
            cases hl : loadKeyValue fsys kernel with
            | error m =>
              rw [hl] at h
              cases h
              exact Or.inl ⟨kernel, m, rfl⟩
            | ok d =>
              rw [hl] at h
              dsimp only at h
              by_cases ho : opts.isEmpty
              · rw [if_pos ho] at h; cases h
              · rw [if_neg ho] at h; cases h
        · rw [if_neg h1] at h
          by_cases h2 : f0 = "initrd"
          · rw [if_pos h2] at h
            cases fs with
            | nil => cases h
            | cons p ps =>
              dsimp only at h
              cases hg : grubLoadInitrds fsys e (p :: ps) with
              | error m =>
                rw [hg] at h
                cases h
                exact Or.inr (grubLoadInitrds_error_shape (p :: ps) fsys e msg hg)
              | ok e4 =>
                rw [hg] at h
                cases h
          · rw [if_neg h2] at h
            cases h

-- A failing initrd body line makes the dispatcher fail, whatever the
-- accumulated entry.
theorem processGrubLine_initrd_fails (fsys : FS) (e : Entry) (raw : String)
    (hf : grubInitrdLoadFails fsys raw) :
    ∃ msg, processGrubLine fsys e raw = .error msg := by
  obtain ⟨ps, q, m, hfields, hq, hl⟩ := hf
  unfold processGrubLine
  have h0 : ¬ (goTrimSpace raw = "") := by
    intro h0
    rw [h0] at hfields
    simp [goFields, goFieldsAux] at hfields
  rw [if_neg h0]
  have hh : ¬ ("#".data.isPrefixOf (goTrimSpace raw).data = true) := by
    intro hh
    exact goFields_hash_not_initrd _ hh ps hfields
  rw [if_neg hh]
  rw [hfields]
  dsimp only
  rw [if_neg (by decide), if_pos rfl]
  cases ps with
  | nil => simp at hq
  | cons p ps2 =>
    obtain ⟨msg, hmsg⟩ := grubLoadInitrds_fails (p :: ps2) fsys e ⟨q, hq, m, hl⟩
    rw [hmsg]
    exact ⟨msg, rfl⟩

-- The body scan aborts with a path-naming error as soon as some body line
-- is a failing initrd line.
theorem grubScanLines_abort (ls : List String) :
    ∀ (fsys : FS) (e : Entry), (∃ l ∈ ls, grubInitrdLoadFails fsys l) →
      ∃ q m,
        grubScanLines fsys e ls =
          GoResult.err ("loading linux image " ++ q ++ ": " ++ m) ∨
        grubScanLines fsys e ls =
          GoResult.err ("loading initrd " ++ q ++ ": " ++ m) := by
  induction ls with
  | nil =>
    rintro fsys e ⟨l, hl, _⟩
    simp at hl
  | cons a rest ih =>
    rintro fsys e ⟨l, hl, hf⟩
    unfold grubScanLines
    cases hk : processGrubLine fsys e a with
    | error msg =>
      rcases processGrubLine_error_shape fsys e a msg hk with ⟨q, m, hm⟩ | ⟨q, m, hm⟩
      · exact ⟨q, m, Or.inl (by rw [hm])⟩
      · exact ⟨q, m, Or.inr (by rw [hm])⟩
    | ok e2 =>
      rcases List.mem_cons.mp hl with heq | hmem
      · subst heq
        obtain ⟨msg, hmsg⟩ := processGrubLine_initrd_fails fsys e l hf
        rw [hmsg] at hk
        cases hk
      · exact ih fsys e2 ⟨l, hmem, hf⟩

-- ---------------------------------------------------------------------------
-- Claims C6, C7, C8
-- ---------------------------------------------------------------------------

/-- Claim C6: in both parsers, an initrd key or directive whose path fails
to load aborts the whole parse: the UAPI parser returns the wrapped error
naming the offending line and no entry, and the GRUB parser (on any input
that reaches its body scan) returns an error naming the failing path and no
entry; in the result type an error return carries no entry at all, so no
partially filled entry can leak out. -/
theorem C6_initrd_load_failure_aborts :
    (∀ (fsys : FS) (path : String) (bs : List Nat) (l : String),
      fsys path = .ok bs →
      l ∈ goLines (bytesToString bs) →
      uapiInitrdLoadFails fsys l →
      ∃ l2 m, LoadEntry fsys path =
        GoResult.err ("error parsing entry line, " ++ m ++ " line:" ++ l2)) ∧
    (∀ (fsys : FS) (path b : String) (bs2 : List String) (t body l : String),
      (ExtractGrubMenuentries (grubText fsys path)).1 = b :: bs2 →
      menuentryTitleCapture b = some t →
      braceBodyCapture b = some body →
      l ∈ goScanLines body →
      grubInitrdLoadFails fsys l →
      ∃ q m,
        LoadGrubEntry fsys path =
          GoResult.err ("loading linux image " ++ q ++ ": " ++ m) ∨
        LoadGrubEntry fsys path =
          GoResult.err ("loading initrd " ++ q ++ ": " ++ m)) := by
  constructor
  · intro fsys path bs l hread hmem hfail
    unfold LoadEntry
    rw [hread]
    exact parseLines_abort _ fsys entryZero ⟨l, hmem, hfail⟩
  · intro fsys path b bs2 t body l hblocks htitle hbody hmem hfail
    unfold LoadGrubEntry
    rw [hblocks]
    dsimp only
    rw [htitle]
    dsimp only
    rw [hbody]
    dsimp only
    exact grubScanLines_abort _ fsys _ ⟨l, hmem, hfail⟩

-- Concrete inputs for the C6 witness: entry files naming a missing initrd.
def uapiCfgC6 : String := "initrd missing\n"

def fsC6u : FS := fun p =>
  if p = "entry.conf" then .ok (strBytes uapiCfgC6) else .error "nf"

def grubCfgC6 : String :=
  "menuentry " ++ sq ++ "T" ++ sq ++ " \x7b\ninitrd missing\n\x7d\n"

def grubBlockC6 : String :=
  "menuentry " ++ sq ++ "T" ++ sq ++ " \x7b\ninitrd missing\n\x7d"

def fsC6g : FS := fun p =>
  if p = "g" then .ok (strBytes grubCfgC6) else .error "nf"

/-- Witness for claim C6: both parsers, run on a file naming a missing
initrd path, return an error naming the failing line or path. -/
theorem C6_witness :
    (∃ l2 m, LoadEntry fsC6u "entry.conf" =
      GoResult.err ("error parsing entry line, " ++ m ++ " line:" ++ l2)) ∧
    (∃ q m,
      LoadGrubEntry fsC6g "g" =
        GoResult.err ("loading linux image " ++ q ++ ": " ++ m) ∨
      LoadGrubEntry fsC6g "g" =
        GoResult.err ("loading initrd " ++ q ++ ": " ++ m)) :=
  ⟨C6_initrd_load_failure_aborts.1 fsC6u "entry.conf" (strBytes uapiCfgC6)
      "initrd missing\n" (by decide) (by decide)
      ⟨"missing\n", "nf", by decide, by decide⟩,
   C6_initrd_load_failure_aborts.2 fsC6g "g" grubBlockC6 [] "T"
      "\ninitrd missing\n" "initrd missing"
      (by decide) (by decide) (by decide) (by decide)
      ⟨["missing"], "missing", "nf", by decide, by decide, by decide⟩⟩

/-- Claim C7: in both parsers, when the parse succeeds the Initrd byte
sequence is exactly the concatenation, in the textual order of occurrence,
of the resolved contents of every initrd value: the UAPI result equals the
per-line concatenation over the entry lines, and the GRUB result equals the
per-line concatenation over the scanned body lines (each line contributing
its paths in field order). -/
theorem C7_initrd_concatenation_in_order :
    (∀ (fsys : FS) (path : String) (bs : List Nat) (e : Entry),
      fsys path = .ok bs →
      LoadEntry fsys path = .ok e →
      e.Initrd = specInitrdConcatUAPI fsys (goLines (bytesToString bs))) ∧
    (∀ (fsys : FS) (path b : String) (bs2 : List String) (t body : String) (e : Entry),
      (ExtractGrubMenuentries (grubText fsys path)).1 = b :: bs2 →
      menuentryTitleCapture b = some t →
      braceBodyCapture b = some body →
      LoadGrubEntry fsys path = .ok e →
      e.Initrd = specInitrdConcatGrub fsys (goScanLines body)) := by
  constructor
  · intro fsys path bs e hread hok
    unfold LoadEntry at hok
    rw [hread] at hok
    have := parseLines_ok_accum _ fsys entryZero e hok
    simpa [entryZero] using this.1
  · intro fsys path b bs2 t body e hblocks htitle hbody hok
    unfold LoadGrubEntry at hok
    rw [hblocks] at hok
    dsimp only at hok
    rw [htitle] at hok
    dsimp only at hok
    rw [hbody] at hok
    dsimp only at hok
    have := grubScanLines_ok _ fsys _ e hok
    simpa [entryZero] using this

-- Concrete inputs for the C7 witness: two initrd files with bytes 65 and
-- 66, named in that order by each format.
def uapiCfgC7 : String := "initrd i1\ninitrd i2\n"

def fsC7u : FS := fun p =>
  if p = "entry.conf" then .ok (strBytes uapiCfgC7)
  else if p = "i1" then .ok [65]
  else if p = "i2" then .ok [66]
  else .error "nf"

def entryC7u : Entry :=
  { Title := "", Linux := [], Initrd := [65, 66], Options := "",
    parsed := "initrd i1\ninitrd i2\n", ignored := "" }

def grubCfgC7 : String :=
  "menuentry " ++ sq ++ "T" ++ sq ++ " \x7b\ninitrd i1 i2\n\x7d\n"

def grubBlockC7 : String :=
  "menuentry " ++ sq ++ "T" ++ sq ++ " \x7b\ninitrd i1 i2\n\x7d"

def fsC7g : FS := fun p =>
  if p = "g" then .ok (strBytes grubCfgC7)
  else if p = "i1" then .ok [65]
  else if p = "i2" then .ok [66]
  else .error "nf"

def entryC7g : Entry :=
  { Title := "T", Linux := [], Initrd := [65, 66], Options := "",
    parsed := "initrd i1 i2\n", ignored := "" }

/-- Witness for claim C7: with initrd files of bytes 65 then 66, both
parsers produce exactly the in-order concatenation demanded by the
specification-side functions. -/
theorem C7_witness :
    entryC7u.Initrd =
      specInitrdConcatUAPI fsC7u (goLines (bytesToString (strBytes uapiCfgC7))) ∧
    entryC7g.Initrd = specInitrdConcatGrub fsC7g (goScanLines "\ninitrd i1 i2\n") :=
  ⟨C7_initrd_concatenation_in_order.1 fsC7u "entry.conf" (strBytes uapiCfgC7)
      entryC7u (by decide) (by decide),
   C7_initrd_concatenation_in_order.2 fsC7g "g" grubBlockC7 [] "T"
      "\ninitrd i1 i2\n" entryC7g (by decide) (by decide) (by decide) (by decide)⟩

/-- Claim C8: in the UAPI parser, when the parse succeeds the Options value
is the pure concatenation, with no separator inserted, of the trimmed
values of the options lines in line order. -/
theorem C8_options_pure_concatenation :
    ∀ (fsys : FS) (path : String) (bs : List Nat) (e : Entry),
      fsys path = .ok bs →
      LoadEntry fsys path = .ok e →
      e.Options = specOptionsConcatUAPI (goLines (bytesToString bs)) := by
  intro fsys path bs e hread hok
  unfold LoadEntry at hok
  rw [hread] at hok
  have := parseLines_ok_accum _ fsys entryZero e hok
  simpa [entryZero] using this.2

-- Concrete input for the C8 witness: options foo then options bar.
def uapiCfgC8 : String := "options foo\noptions bar\n"

def fsC8 : FS := fun p =>
  if p = "entry.conf" then .ok (strBytes uapiCfgC8) else .error "nf"

def entryC8 : Entry :=
  { Title := "", Linux := [], Initrd := [], Options := "foobar",
    parsed := "options foo\noptions bar\n", ignored := "" }

/-- Witness for claim C8: the lines options foo and options bar yield the
Options value foobar, the separator-free concatenation. -/
theorem C8_witness :
    entryC8.Options =
      specOptionsConcatUAPI (goLines (bytesToString (strBytes uapiCfgC8))) ∧
    entryC8.Options = "foobar" :=
  ⟨C8_options_pure_concatenation fsC8 "entry.conf" (strBytes uapiCfgC8) entryC8
      (by decide) (by decide),
   by decide⟩

end GoBoot
